import Mathlib

/-!
Verification of the triage-party core against its specification.

This file gives a shallow embedding, in Lean 4, of the parts of the
triage-party repository that the specified properties are about:

* `pkg/persist/gocache.go` — the in-memory cache front (`setMem`,
  `newerThanMem`);
* `pkg/updater` (second half of `pkg/persist/persist.go` in the source
  bundle) — the refresh scheduler (`shouldUpdate`, `update`);
* `pkg/hubbub/item.go` — the conversation builder / tagger
  (`conversation`, the hold-time, response-time and question-time
  bookkeeping and the tag derivation);
* `pkg/hubbub` search (`src/unnamed/part_001`) — `SearchAny`,
  `SearchIssues`, `SearchPullRequests` de-duplication, timestamp and
  error plumbing.

Go `time.Time` values are modelled as `Int` (nanoseconds on an absolute
axis, the zero `time.Time` being `0`); `time.Duration` is likewise `Int`
(nanoseconds).  `t.After u` is `u < t`, `t.Before u` is `t < u`,
`t.Sub u` is `t - u`, and `time.Since t` is `now - t` with `now` passed
explicitly.  Go maps used as sets become membership in lists or boolean
functions.  Fallible calls return their error explicitly as
`Option GoError`, mirroring Go multi-value returns.
-/

namespace TriageParty

/-- Go `time.Time`, as absolute nanoseconds; the zero time is `0`. -/
abbrev Time := Int

/-- Go `time.Duration`, in nanoseconds. -/
abbrev Duration := Int

/-- A Go `error` value; only its presence matters to the properties. -/
abbrev GoError := String

namespace Persist

/-- `provider.Thing` (the cache entry): an opaque payload plus its
`Created` timestamp. -/
structure Thing where
  created : Time
  payload : String
deriving DecidableEq, Repr

/-- A value stored in the `go-cache` map.  Go's map holds `interface{}`
values; the `thing` constructor is a stored `*Thing`, while `other`
stands for a value of any other dynamic type (for which the
`x.(*Thing)` type assertion in `newerThanMem` fails). -/
inductive CacheValue where
  | thing (th : Thing)
  | other (tag : String)
deriving DecidableEq, Repr

/-- The in-memory `cache.Cache` map, keyed by string. -/
abbrev MemCache := String → Option CacheValue

/-- The empty in-memory cache (`createMem`). -/
def createMem : MemCache := fun _ => none

/-- `setMem` (gocache.go): if the entry's `Created` is zero it is
stamped with the current time, then the entry is stored under `key`.
Only `*Thing` values are ever stored. -/
def setMem (c : MemCache) (key : String) (th : Thing) (now : Time) : MemCache :=
  let th := if th.created = 0 then { th with created := now } else th
  fun k => if k = key then some (CacheValue.thing th) else c k

/-- `newerThanMem` (gocache.go), with the failed-type-assertion branch
made explicit: the second component is `true` exactly when the lookup
found a value that is not a `*Thing` (in Go the function then logs and
unconditionally dereferences the nil result of the failed assertion).
Otherwise it returns the stored entry iff its `Created` is not before
`t`. -/
def newerThanMem (c : MemCache) (key : String) (t : Time) : Option Thing × Bool :=
  match c key with
  | none => (none, false)
  | some (CacheValue.other _) => (none, true)
  | some (CacheValue.thing th) =>
      if th.created < t then (none, false) else (some th, false)

/-- Caches reachable from the empty cache using only `setMem`. -/
inductive PopulatedBySet : MemCache → Prop where
  | empty : PopulatedBySet createMem
  | set (c : MemCache) (key : String) (th : Thing) (now : Time) :
      PopulatedBySet c → PopulatedBySet (setMem c key th now)

end Persist

namespace Updater

/-- The updater state, restricted to the fields `shouldUpdate` reads.
`cache` maps a collection id to the `Created` stamp of its cached
`CollectionResult` (`none` when no result is cached); `lastRequest` and
`secondLastRequest` are the access-time maps (`none` models a missing
`sync.Map` entry). -/
structure State where
  updateCycles : Nat
  cache : String → Option Time
  lastRequest : String → Option Time
  secondLastRequest : String → Option Time
  startTime : Time
  minRefresh : Duration
  maxRefresh : Duration
  now : Time

/-- `lastRequested`: a missing map entry yields the zero time. -/
def State.lastRequested (u : State) (id : String) : Time :=
  (u.lastRequest id).getD 0

/-- `secondLastRequested`: a missing map entry yields `startTime`. -/
def State.secondLastRequested (u : State) (id : String) : Time :=
  (u.secondLastRequest id).getD u.startTime

/-- `shouldUpdate` (updater): returns `some reason` when the collection
needs a refresh, `none` otherwise, following the source line by line.
Go's integer division of `time.Duration` truncates toward zero, which
is `Int.tdiv`. -/
def shouldUpdate (u : State) (id : String) (usedForStats force : Bool) :
    Option String :=
  if u.updateCycles < 2 then some "cycle count is too low" else
  match u.cache id with
  | none => some "results are not cached"
  | some created =>
    let resultAge : Duration := u.now - created
    let maxRefresh : Duration := if usedForStats then u.maxRefresh * 3 else u.maxRefresh
    if resultAge > maxRefresh then some "older than max refresh age, should update" else
    if force then some "force-mode enabled" else
    if u.lastRequested id = 0 then none else
    if resultAge < u.minRefresh then none else
    let requestAge : Duration := u.now - u.lastRequested id
    let secondRequestDiff : Duration := u.lastRequested id - u.secondLastRequested id
    let needAge : Duration := Int.tdiv (requestAge + secondRequestDiff) 2 + u.minRefresh
    if resultAge > needAge ∧ usedForStats = false then
      some "result age too old based on popularity"
    else none

/-- The claimed condition set for `shouldUpdate` (C6), transcribed from
the specification: cycles below two, nothing cached, result older than
the (stats-scaled) max refresh age, force, or — once requested and at
least `minRefresh` old — older than the adaptive `need-age`. -/
def claimedUpdateCond (u : State) (id : String) (usedForStats force : Bool) : Prop :=
  u.updateCycles < 2 ∨
  u.cache id = none ∨
  ∃ created, u.cache id = some created ∧
    (u.now - created > (if usedForStats then u.maxRefresh * 3 else u.maxRefresh) ∨
     force = true ∨
     (u.lastRequested id ≠ 0 ∧
      u.now - created ≥ u.minRefresh ∧
      u.now - created >
        Int.tdiv ((u.now - u.lastRequested id) +
            (u.lastRequested id - u.secondLastRequested id)) 2 +
          u.minRefresh))

/-- The amended condition set: identical to `claimedUpdateCond` except
that the adaptive (popularity-based) branch applies only to collections
not used for stats, as the source guards it with `!usedForStats`. -/
def amendedUpdateCond (u : State) (id : String) (usedForStats force : Bool) : Prop :=
  u.updateCycles < 2 ∨
  u.cache id = none ∨
  ∃ created, u.cache id = some created ∧
    (u.now - created > (if usedForStats then u.maxRefresh * 3 else u.maxRefresh) ∨
     force = true ∨
     (u.lastRequested id ≠ 0 ∧
      u.now - created ≥ u.minRefresh ∧
      u.now - created >
        Int.tdiv ((u.now - u.lastRequested id) +
            (u.lastRequested id - u.secondLastRequested id)) 2 +
          u.minRefresh ∧
      usedForStats = false))

/-- `triage.CollectionResult`, restricted to its timestamps: `Created`
(the wall-clock stamp of the evaluation) and `OldestInput`. -/
structure CollectionResult where
  created : Time
  oldestInput : Time
deriving DecidableEq, Repr

/-- `update` (updater): runs `ExecuteCollection` — whose outcome is
passed in as `res` — and stores the result in the cache only when no
error occurred; on error the error is returned and the cache is left
untouched. -/
def update (cache : String → Option CollectionResult) (id : String)
    (res : Except GoError CollectionResult) :
    (String → Option CollectionResult) × Option GoError :=
  match res with
  | Except.error e => (cache, some e)
  | Except.ok r => (fun k => if k = id then some r else cache k, none)

/-- Modelled from the spec: `ExecuteCollection` (package `triage`, not
among the provided sources) "sequentially executes each rule, unions
into a result with `created = now`, `oldest-input = min(rule
oldest-inputs)`".  `ruleTs` are the rules' oldest-input timestamps. -/
def executeCollectionResult (ruleTs : List Time) (now : Time) : CollectionResult :=
  { created := now
    oldestInput :=
      match ruleTs with
      | [] => now
      | t :: ts => List.foldl min t ts }

end Updater

namespace Hubbub

/-- The outcome of one cached listing fetch (`cachedIssues` or
`cachedPRs`): the items, the fetch timestamp, and the error.  The
fetcher itself is outside the modelled sources, so each search is
parametrized by the outcomes of its fetches. -/
structure FetchOut (α : Type) where
  items : List α
  ts : Time
  err : Option GoError

/-- A GitHub issue, restricted to the fields the search inspect loop
reads: `GetNumber`, `GetURL` (the de-duplication key) and
`GetUpdatedAt`. -/
structure Issue where
  number : Nat
  url : String
  updatedAt : Time
deriving DecidableEq, Repr

/-- A GitHub pull request, restricted to the fields the search inspect
loop reads. -/
structure PullRequest where
  number : Nat
  url : String
  updatedAt : Time
deriving DecidableEq, Repr

/-- One step of the issue inspect loop (`SearchIssues`): skip items
that fail the debug filter, then skip items whose `GetURL` was already
seen; otherwise record the URL and keep the item.  The accumulator is
`(seen, is)`. -/
def issueInspectStep (debug : List Nat) (acc : List String × List Issue)
    (i : Issue) : List String × List Issue :=
  if debug ≠ [] ∧ i.number ∉ debug then acc
  else if i.url ∈ acc.1 then acc
  else (i.url :: acc.1, acc.2 ++ [i])

/-- The issue inspect loop over the concatenated `open ++ closed`
listings, producing the de-duplicated list `is`. -/
def issueInspect (debug : List Nat) (openIs closedIs : List Issue) : List Issue :=
  (List.foldl (issueInspectStep debug) ([], []) (openIs ++ closedIs)).2

/-- One step of the PR inspect loop (`SearchPullRequests`): track the
latest `GetUpdatedAt`, then apply only the debug filter — there is no
URL de-duplication.  The accumulator is `(latest, prs)`. -/
def prInspectStep (debug : List Nat) (acc : Time × List PullRequest)
    (pr : PullRequest) : Time × List PullRequest :=
  let latest := if pr.updatedAt > acc.1 then pr.updatedAt else acc.1
  if debug ≠ [] ∧ pr.number ∉ debug then (latest, acc.2)
  else (latest, acc.2 ++ [pr])

/-- The PR inspect loop over the concatenated `open ++ closed`
listings, returning `(latest, prs)` — `latest` starts from the zero
time. -/
def prInspect (debug : List Nat) (openPs closedPs : List PullRequest) :
    Time × List PullRequest :=
  List.foldl (prInspectStep debug) (0, []) (openPs ++ closedPs)

/-- The `age` computation of `SearchIssues`: `age` starts at
`time.Now()`; the open-listing goroutine returns early on error
(leaving `age` untouched), otherwise folds its fetch timestamp in by
minimum; the closed-listing goroutine runs only when `NeedsClosed`,
logs an error but still folds the returned timestamp in. -/
def searchIssuesAge (now : Time) (needClosed : Bool)
    (openRes closedRes : FetchOut Issue) : Time :=
  let age := now
  let age :=
    match openRes.err with
    | some _ => age
    | none => if openRes.ts < age then openRes.ts else age
  if needClosed then
    if closedRes.ts < age then closedRes.ts else age
  else age

/-- The open listing actually used by `SearchIssues`: on fetch error
the goroutine returns before assigning, so `open` keeps its nil zero
value. -/
def searchIssuesOpenList (openRes : FetchOut Issue) : List Issue :=
  match openRes.err with
  | some _ => []
  | none => openRes.items

/-- The closed listing actually used by `SearchIssues`: fetched only
when `NeedsClosed`; assigned even when the fetch reported an error. -/
def searchIssuesClosedList (needClosed : Bool) (closedRes : FetchOut Issue) :
    List Issue :=
  if needClosed then closedRes.items else []

/-- The `(timestamp, error)` pair returned by `SearchIssues`: the
final statement is `return filtered, age, nil`, so the error component
is always nil — fetch errors are only logged. -/
def searchIssuesOut (now : Time) (needClosed : Bool)
    (openRes closedRes : FetchOut Issue) : Time × Option GoError :=
  (searchIssuesAge now needClosed openRes closedRes, none)

/-- The open listing used by `SearchPullRequests` (early return on
error, like the open-issue goroutine). -/
def searchPRsOpenList (openRes : FetchOut PullRequest) : List PullRequest :=
  match openRes.err with
  | some _ => []
  | none => openRes.items

/-- The closed listing used by `SearchPullRequests`; unlike the closed
issue goroutine, this one returns early on error. -/
def searchPRsClosedList (needClosed : Bool) (closedRes : FetchOut PullRequest) :
    List PullRequest :=
  if needClosed then
    match closedRes.err with
    | some _ => []
    | none => closedRes.items
  else []

/-- The `(timestamp, error)` pair returned by `SearchPullRequests`:
the final statement is `return filtered, latest, nil`, where `latest`
is the newest `GetUpdatedAt` seen by the inspect loop — not the
minimum fetch timestamp. -/
def searchPullRequestsOut (debug : List Nat) (needClosed : Bool)
    (openRes closedRes : FetchOut PullRequest) : Time × Option GoError :=
  ((prInspect debug (searchPRsOpenList openRes)
      (searchPRsClosedList needClosed closedRes)).1, none)

/-- The timestamp/error plumbing of `SearchAny`: on an issue-search
error return the issue timestamp and the error; on a PR-search error
likewise return the issue timestamp; otherwise return the LATER of the
two timestamps (`if pts.After(ts) { ts = pts }`). -/
def searchAnyOut (issueOut prOut : Time × Option GoError) : Time × Option GoError :=
  match issueOut with
  | (ts, some e) => (ts, some e)
  | (ts, none) =>
    match prOut with
    | (_, some e) => (ts, some e)
    | (pts, none) => (if pts > ts then pts else ts, none)

/-- A comment (`hubbub.Comment`), restricted to the fields the
conversation builder reads: author handle (`User.GetLogin()`), author
association, body, created / updated times, reaction total. -/
structure Comment where
  user : String
  authorAssoc : String
  body : String
  created : Time
  updated : Time
  reactionsTotal : Nat
deriving DecidableEq, Repr

/-- A `GitHubItem` (issue or PR), restricted to the accessors the
conversation builder calls.  `assignee` is the assignee's login when
`GetAssignee()` is non-nil (Go's `GetLogin()` on a nil user yields the
empty string); `milestoneState` is the milestone's state when
`GetMilestone()` is non-nil. -/
structure Item where
  number : Nat
  url : String
  title : String
  body : String
  user : String
  authorAssoc : String
  state : String
  createdAt : Time
  updatedAt : Time
  closedAt : Time
  assignee : Option String
  milestoneState : Option String
  commentsCount : Nat
deriving DecidableEq, Repr

/-- The engine configuration consulted by the conversation builder.
`members` and `memberRoles` mirror `h.members` and `h.memberRoles`.
The `isBot` heuristic ("handle suffix / known list" per the spec) is
not among the provided sources, so it is kept as an abstract predicate
on the commenter handle; every property below holds for every choice
of it. -/
structure Engine where
  members : String → Bool
  memberRoles : String → Bool
  bots : String → Bool

/-- `isMember` (item.go): handle in the member list, or (lower-cased)
author association in the member-role list. -/
def Engine.isMember (h : Engine) (user role : String) : Bool :=
  h.members user || h.memberRoles role.toLower

/-- `isBot`, as the engine's abstract bot predicate. -/
def Engine.isBot (h : Engine) (user : String) : Bool := h.bots user

/-- The derived tags of `pkg/tag` that the conversation builder can
attach. -/
inductive Tag where
  | assigned
  | commented
  | send
  | recv
  | recvQ
  | openMilestone
  | assigneeUpdated
  | authorLast
  | roleLast (role : String)
  | closed
  | similar
deriving DecidableEq, Repr

/-- `hubbub.Conversation`, restricted to the fields the builder in
item.go writes.  The cross-reference set (`IssueRefs`), the reaction
breakdown map and the floating-point per-month rates are not modelled:
the specified properties do not mention them (`parseRefs` touches only
`IssueRefs` and the engine's mtime map, and the rates are computed
after the hold-time check). -/
structure Conversation where
  id : Nat
  url : String
  title : String
  state : String
  seen : Time
  created : Time
  updated : Time
  commentsTotal : Nat
  closedAt : Time
  selfInflicted : Bool
  latestAuthorResponse : Time
  latestMemberResponse : Time
  latestAssigneeResponse : Time
  accumulatedHoldTime : Duration
  currentHoldTime : Duration
  closedCommentsTotal : Nat
  closedCommentersTotal : Nat
  commentersTotal : Nat
  reactionsTotal : Nat
  assignees : List String
  commenters : List String
  tags : List Tag
  lastCommentAuthor : String
  lastCommentBody : String
deriving DecidableEq, Repr

/-- The conversation-builder loop state: the conversation under
construction plus the loop locals of item.go (`lastQuestion`,
`seenCommenters`, `seenClosedCommenters`, `seenMemberComment`). -/
structure ConvState where
  co : Conversation
  lastQuestion : Time
  seenCommenters : List String
  seenClosedCommenters : List String
  seenMemberComment : Bool
deriving DecidableEq, Repr

/-- 30 seconds, in nanoseconds (the grace period for closed-comment
accounting). -/
def thirtySeconds : Duration := 30 * 1000000000

/-- `strings.Split(body, "\n")` as a structural recursion over the
character list (Lean's byte-indexed `String.splitOn` does not reduce
in the kernel). -/
def goSplitLinesChars : List Char → List (List Char)
  | [] => [[]]
  | x :: xs =>
    match goSplitLinesChars xs with
    | [] => [[x]]
    | y :: ys => if x = '\x0a' then [] :: y :: ys else (x :: y) :: ys

/-- `strings.Split(body, "\n")`. -/
def goSplitLines (s : String) : List String :=
  (goSplitLinesChars s.data).map fun l => { data := l }

/-- `strings.TrimSpace(line)`: drop whitespace from both ends
(`Char.isWhitespace` stands in for Go's Unicode White_Space class). -/
def goTrimSpace (s : String) : String :=
  { data :=
      (((s.data.dropWhile Char.isWhitespace).reverse.dropWhile
        Char.isWhitespace).reverse) }

/-- `strings.HasPrefix(s, pre)`. -/
def goHasPrefix (s pre : String) : Bool :=
  pre.data.isPrefixOf s.data

/-- `strings.Contains(s, string(c))` for a one-character substring. -/
def goContainsChar (s : String) (c : Char) : Bool :=
  s.data.contains c

/-- Lines 162–173 of item.go: the per-comment question scan.  The RAW
body is split into lines; a line is ignored if, after trimming, it
starts with `>`; any remaining line containing `?` moves
`lastQuestion` to the comment's creation time.  Code fences are NOT
stripped here — `codeRe` is applied only inside `parseRefs`. -/
def scanQuestion (lastQuestion : Time) (body : String) (created : Time) : Time :=
  if goContainsChar body '?' then
    (goSplitLines body).foldl
      (fun lq line =>
        let line := goTrimSpace line
        if goHasPrefix line ">" then lq
        else if goContainsChar line '?' then created
        else lq)
      lastQuestion
  else lastQuestion

/-- The body of the comment loop of `conversation` (item.go lines
115–179).  Each Go assignment becomes one conditional field value:
bots are skipped outright (line 122); last-comment bookkeeping (126);
reactions (129–135); closed-comment accounting with the 30 s grace
(137–141); author response (143–145); assignee response (147–149); the
member block (151–160), whose hold-time guard reads
`co.LatestAuthorResponse` AFTER the line-143 update — hence the
`latestAuthorResponse2` binding; the question scan (162–173); unique
commenters (175–178). -/
def processComment (h : Engine) (i : Item) (authorIsMember : Bool)
    (st : ConvState) (c : Comment) : ConvState :=
  if h.isBot c.user then st else
  let isClosedComment : Bool :=
    i.closedAt ≠ 0 ∧ c.created > i.closedAt + thirtySeconds
  let latestAuthorResponse2 :=
    if c.user = i.user then c.created else st.co.latestAuthorResponse
  let isMemberComment : Bool :=
    h.isMember c.user c.authorAssoc && !h.isBot c.user
  let accumulateHold : Bool :=
    isMemberComment ∧
      (¬(st.co.latestMemberResponse > latestAuthorResponse2) ∧
        authorIsMember = false)
  { co :=
      { st.co with
        lastCommentBody := c.body
        lastCommentAuthor := c.user
        reactionsTotal :=
          if c.reactionsTotal > 0 then st.co.reactionsTotal + c.reactionsTotal
          else st.co.reactionsTotal
        closedCommentsTotal :=
          if isClosedComment then st.co.closedCommentsTotal + 1
          else st.co.closedCommentsTotal
        latestAuthorResponse := latestAuthorResponse2
        latestAssigneeResponse :=
          if c.user = i.assignee.getD "" then c.created
          else st.co.latestAssigneeResponse
        accumulatedHoldTime :=
          if accumulateHold then
            st.co.accumulatedHoldTime + (c.created - latestAuthorResponse2)
          else st.co.accumulatedHoldTime
        latestMemberResponse :=
          if isMemberComment then c.created else st.co.latestMemberResponse
        tags :=
          if isMemberComment ∧ st.seenMemberComment = false then
            st.co.tags ++ [Tag.commented]
          else st.co.tags
        commenters :=
          if c.user ∈ st.seenCommenters then st.co.commenters
          else st.co.commenters ++ [c.user] }
    lastQuestion := scanQuestion st.lastQuestion c.body c.created
    seenCommenters :=
      if c.user ∈ st.seenCommenters then st.seenCommenters
      else c.user :: st.seenCommenters
    seenClosedCommenters :=
      if isClosedComment then
        if c.user ∈ st.seenClosedCommenters then st.seenClosedCommenters
        else c.user :: st.seenClosedCommenters
      else st.seenClosedCommenters
    seenMemberComment :=
      if isMemberComment ∧ st.seenMemberComment = false then true
      else st.seenMemberComment }

/-- The initial conversation (item.go lines 66–104): the struct
literal, the assignee / `assigned` tag, and the non-member
initialization of `LatestMemberResponse` to the item's creation time.
Returns the conversation together with `authorIsMember`. -/
def initConversation (h : Engine) (i : Item) (age : Time) : Conversation × Bool :=
  let authorIsMember := h.isMember i.user i.authorAssoc
  let co : Conversation :=
    { id := i.number
      url := i.url
      title := i.title
      state := i.state
      seen := age
      created := i.createdAt
      updated := 0
      commentsTotal := i.commentsCount
      closedAt := i.closedAt
      selfInflicted := authorIsMember
      latestAuthorResponse := i.createdAt
      latestMemberResponse := 0
      latestAssigneeResponse := 0
      accumulatedHoldTime := 0
      currentHoldTime := 0
      closedCommentsTotal := 0
      closedCommentersTotal := 0
      commentersTotal := 0
      reactionsTotal := 0
      assignees := []
      commenters := []
      tags := []
      lastCommentAuthor := i.user
      lastCommentBody := i.body }
  let co :=
    match i.assignee with
    | some a =>
      { co with
        assignees := co.assignees ++ [a]
        tags := co.tags ++ [Tag.assigned] }
    | none => co
  let co :=
    if authorIsMember = false then { co with latestMemberResponse := i.createdAt }
    else co
  (co, authorIsMember)

/-- The post-loop tag derivation and checks of `conversation` (item.go
lines 181–233): `send` / `recv` with hold times, `recv-q`,
`open-milestone`, `assignee-updated`, the last-comment role tags,
`closed`, the commenter totals, and finally — as the Boolean returned
alongside — whether the accumulated-hold-time panic fires. -/
def finishConversation (i : Item) (cs : List Comment) (now : Time)
    (authorIsMember : Bool) (st : ConvState) : Conversation × Bool :=
  let currentHoldTime :=
    if st.co.latestMemberResponse > st.co.latestAuthorResponse then 0
    else if authorIsMember = false then
      st.co.currentHoldTime + (now - st.co.latestAuthorResponse)
    else st.co.currentHoldTime
  let accumulatedHoldTime :=
    if st.co.latestMemberResponse > st.co.latestAuthorResponse then
      st.co.accumulatedHoldTime
    else if authorIsMember = false then
      st.co.accumulatedHoldTime + (now - st.co.latestAuthorResponse)
    else st.co.accumulatedHoldTime
  let tags := st.co.tags ++
    (if st.co.latestMemberResponse > st.co.latestAuthorResponse then [Tag.send]
     else if authorIsMember = false then [Tag.recv]
     else []) ++
    (if st.lastQuestion > st.co.latestMemberResponse then [Tag.recvQ] else []) ++
    (if i.milestoneState = some "open" then [Tag.openMilestone] else []) ++
    (if st.co.latestAssigneeResponse ≠ 0 then [Tag.assigneeUpdated] else []) ++
    (match cs.getLast? with
     | none => []
     | some last =>
       if last.authorAssoc.toLower = "none" then
         if last.user = i.user then [Tag.authorLast] else []
       else [Tag.roleLast last.authorAssoc.toLower]) ++
    (if st.co.state = "closed" then [Tag.closed] else [])
  let updated :=
    match cs.getLast? with
    | none => st.co.updated
    | some last => last.updated
  let co :=
    { st.co with
      tags := tags
      currentHoldTime := currentHoldTime
      accumulatedHoldTime := accumulatedHoldTime
      updated := updated
      commentersTotal := st.seenCommenters.length
      closedCommentersTotal := st.seenClosedCommenters.length }
  (co, decide (co.accumulatedHoldTime > now - co.created))

/-- `conversation` (item.go): build a Conversation from an item and
its comments.  `age` is the fetch timestamp stored as `Seen`; `now` is
the wall clock consulted by `time.Since`.  The second component is
`true` exactly when the source would hit the
`accumulated > age` panic. -/
def conversation (h : Engine) (i : Item) (cs : List Comment) (now : Time)
    (age : Time) : Conversation × Bool :=
  let (co0, authorIsMember) := initConversation h i age
  let st0 : ConvState :=
    { co := co0
      lastQuestion := 0
      seenCommenters := []
      seenClosedCommenters := []
      seenMemberComment := false }
  let st := cs.foldl (processComment h i authorIsMember) st0
  finishConversation i cs now authorIsMember st

/-- Claim-side (specification) definition: first-seen-wins
de-duplication by `GetURL`, as the spec describes it for search
listings, keeping upstream order.  `seen` is the set of URLs already
taken. -/
def dedupFirstByUrl : List Issue → List String → List Issue
  | [], _ => []
  | i :: is, seen =>
    if i.url ∈ seen then dedupFirstByUrl is seen
    else i :: dedupFirstByUrl is (i.url :: seen)

/-- The raw-body question predicate that the question scan of item.go
actually computes: the body contains `?`, and some line of the raw
body, after trimming, does not start with `>` and contains `?`. -/
def rawBodyQuestion (body : String) : Bool :=
  goContainsChar body '?' &&
    (goSplitLines body).any fun line =>
      let line := goTrimSpace line
      !goHasPrefix line ">" && goContainsChar line '?'

/-- The backquote character (written by code point to keep the source
free of literal backticks). -/
def backquote : Char := Char.ofNat 96

/-- Claim-side helper: does the character list start with a three
backquote fence delimiter? -/
def fenceHead (l : List Char) : Bool :=
  match l with
  | a :: b :: c :: _ => a = backquote && b = backquote && c = backquote
  | _ => false

/-- Claim-side helper: skip to just after the next fence delimiter
(the non-greedy closing of `codeRe`). -/
def findFenceClose : List Char → Option (List Char)
  | [] => none
  | x :: rest =>
    if fenceHead (x :: rest) then some ((x :: rest).drop 3)
    else findFenceClose rest

/-- Claim-side helper: replace each non-greedily matched fence pair by
`<code></code>`; an unmatched opening delimiter is left in place.  The
fuel argument (seeded with the list length) makes the recursion
structural. -/
def stripFencesAux : Nat → List Char → List Char
  | 0, l => l
  | _ + 1, [] => []
  | fuel + 1, x :: rest =>
    if fenceHead (x :: rest) then
      match findFenceClose ((x :: rest).drop 3) with
      | some rest2 => "<code></code>".data ++ stripFencesAux fuel rest2
      | none => x :: rest
    else x :: stripFencesAux fuel rest

/-- Claim-side (specification) definition: strip fenced code blocks,
as `codeRe.ReplaceAllString(text, "<code></code>")` would. -/
def stripCodeFences (s : String) : String :=
  { data := stripFencesAux s.data.length s.data }

/-- Claim-side helper: split at the FIRST occurrence of `tag`,
returning the text before it and the text after it. -/
def findTagSplit (tag : List Char) : List Char → Option (List Char × List Char)
  | [] => none
  | x :: rest =>
    if tag.isPrefixOf (x :: rest) then some ([], (x :: rest).drop tag.length)
    else
      match findTagSplit tag rest with
      | none => none
      | some (pre, post) => some (x :: pre, post)

/-- Claim-side helper: split at the LAST occurrence of `tag`. -/
def findLastTagSplit (tag : List Char) :
    List Char → Option (List Char × List Char)
  | [] => none
  | x :: rest =>
    match findLastTagSplit tag rest with
    | some (pre, post) => some (x :: pre, post)
    | none =>
      if tag.isPrefixOf (x :: rest) then some ([], (x :: rest).drop tag.length)
      else none

/-- Claim-side (specification) definition: strip a `<details>` block,
as the greedy `detailsRe` would (from the first opening tag to the
last closing tag). -/
def stripDetailsBlocks (s : String) : String :=
  match findTagSplit "<details>".data s.data with
  | none => s
  | some (before, afterOpen) =>
    match findLastTagSplit "</details>".data afterOpen with
    | none => s
    | some (_, afterClose) =>
      { data := before ++ "<details></details>".data ++ afterClose }

/-- Claim-side (specification) definition of the C7 question
predicate, following the spec's words: after stripping fenced code
blocks and `<details>` blocks from the body, some line not starting
with `>` contains `?`. -/
def claimQuestionPred (body : String) : Bool :=
  (goSplitLines (stripDetailsBlocks (stripCodeFences body))).any fun line =>
    let line := goTrimSpace line
    !goHasPrefix line ">" && goContainsChar line '?'

/-- A comment body whose only question mark sits inside a fenced code
block. -/
def fencedQuestionBody : String := "```\nneed help?\n```"

end Hubbub

/-- A concrete engine: "alice" is the only member, no member roles, no
bots. -/
def engineExample : Hubbub.Engine :=
  { members := fun s => decide (s = "alice")
    memberRoles := fun _ => false
    bots := fun _ => false }

/-- A concrete item authored by the member "alice", created at time
100. -/
def memberItemExample : Hubbub.Item :=
  { number := 10
    url := "u"
    title := "t"
    body := ""
    user := "alice"
    authorAssoc := "NONE"
    state := "open"
    createdAt := 100
    updatedAt := 100
    closedAt := 0
    assignee := none
    milestoneState := none
    commentsCount := 0 }

/-- A concrete item authored by the non-member "bob", created at time
100. -/
def outsiderItemExample : Hubbub.Item :=
  { number := 11
    url := "v"
    title := "t"
    body := ""
    user := "bob"
    authorAssoc := "NONE"
    state := "open"
    createdAt := 100
    updatedAt := 100
    closedAt := 0
    assignee := none
    milestoneState := none
    commentsCount := 0 }

/-- A concrete updater state: a stats collection "c" whose cached
result is 100 time units old, requested recently enough that the
adaptive (popularity) condition of the specification holds. -/
def updaterStatsExample : Updater.State :=
  { updateCycles := 2
    cache := fun k => if k = "c" then some 0 else none
    lastRequest := fun k => if k = "c" then some 95 else none
    secondLastRequest := fun k => if k = "c" then some 90 else none
    startTime := 0
    minRefresh := 1
    maxRefresh := 1000
    now := 100 }

/-! ## Theorems -/

open Persist in
/-- C1: for every key `k` and timestamp `t`, `GetNewerThan(k, t)`
returns a non-nil entry iff an entry is present under `k` whose
created timestamp is ≥ `t`; whenever it returns non-nil, the returned
entry is the stored one and its created timestamp is ≥ `t`. -/
theorem claim_c1_getNewerThan (c : MemCache) (key : String) (t : Time) :
    ((newerThanMem c key t).1 ≠ none ↔
      ∃ th, c key = some (CacheValue.thing th) ∧ t ≤ th.created) ∧
    (∀ th, (newerThanMem c key t).1 = some th →
      c key = some (CacheValue.thing th) ∧ t ≤ th.created) := by
  cases hc : c key with
  | none => simp [newerThanMem, hc]
  | some v =>
    cases v with
    | other s => simp [newerThanMem, hc]
    | thing th =>
      by_cases hlt : th.created < t
      · constructor
        · simp only [newerThanMem, hc, if_pos hlt]
          constructor
          · intro hne; exact absurd rfl hne
          · rintro ⟨th2, hth2, hle⟩
            simp only [Option.some.injEq, CacheValue.thing.injEq] at hth2
            subst hth2
            exact absurd hle (not_le.mpr hlt)
        · intro th2 h2
          simp only [newerThanMem, hc, if_pos hlt] at h2
          exact absurd h2 (by simp)
      · constructor
        · simp only [newerThanMem, hc, if_neg hlt]
          constructor
          · intro _; exact ⟨th, rfl, le_of_not_lt hlt⟩
          · intro _; simp
        · intro th2 h2
          simp only [newerThanMem, hc, if_neg hlt, Option.some.injEq] at h2
          subst h2
          exact ⟨rfl, le_of_not_lt hlt⟩

open Persist in
/-- Witness for C1: the returned-entry direction at a concrete
cache. -/
theorem claim_c1_witness :
    (fun k =>
      if k = "k" then some (CacheValue.thing ⟨5, "p"⟩) else none) "k" =
        some (CacheValue.thing ⟨5, "p"⟩) ∧
    (3 : Time) ≤ (⟨5, "p"⟩ : Thing).created :=
  (claim_c1_getNewerThan
    (fun k => if k = "k" then some (CacheValue.thing ⟨5, "p"⟩) else none)
    "k" 3).2 ⟨5, "p"⟩ (by decide)

open Persist in
/-- C10: in any cache populated only through `Set`, every stored value
is a `Thing`, so the failed-type-assertion branch of `GetNewerThan`
(which would dereference a nil pointer) is unreachable. -/
theorem claim_c10_only_things (c : MemCache) (hp : PopulatedBySet c)
    (key : String) (t : Time) :
    (∀ v, c key = some v → ∃ th, v = CacheValue.thing th) ∧
    (newerThanMem c key t).2 = false := by
  induction hp with
  | empty =>
    refine ⟨?_, rfl⟩
    intro v hv
    simp [createMem] at hv
  | set c0 key0 th now _ ih =>
    have hvals : ∀ v, setMem c0 key0 th now key = some v →
        ∃ th2, v = CacheValue.thing th2 := by
      intro v hv
      by_cases hk : key = key0
      · simp only [setMem, if_pos hk] at hv
        cases hv
        exact ⟨_, rfl⟩
      · simp only [setMem, if_neg hk] at hv
        exact ih.1 v hv
    refine ⟨hvals, ?_⟩
    unfold newerThanMem
    cases hv : setMem c0 key0 th now key with
    | none => rfl
    | some v =>
      rcases hvals v hv with ⟨th2, rfl⟩
      by_cases hlt : th2.created < t <;> simp [hlt]

open Persist in
/-- Witness for C10: a concrete cache built by one `Set`. -/
theorem claim_c10_witness :
    (newerThanMem (setMem createMem "k" ⟨5, "p"⟩ 9) "k" 3).2 = false :=
  (claim_c10_only_things _
    (PopulatedBySet.set _ _ _ _ PopulatedBySet.empty) "k" 3).2

/-- C6 (amended): `shouldUpdate` returns a non-nil reason iff one of
the documented conditions holds, where the adaptive popularity
condition additionally requires the collection not to be used for
stats (the source guards that branch with `!usedForStats`). -/
theorem claim_c6_shouldUpdate_iff (u : Updater.State) (id : String)
    (stats force : Bool) :
    Updater.shouldUpdate u id stats force ≠ none ↔
      Updater.amendedUpdateCond u id stats force := by
  unfold Updater.shouldUpdate Updater.amendedUpdateCond
  by_cases h1 : u.updateCycles < 2
  · simp [h1]
  · simp only [if_neg h1]
    cases hc : u.cache id with
    | none => simp [h1]
    | some created =>
      simp only [h1, false_or, Option.some.injEq, reduceCtorEq,
        exists_eq_left']
      split_ifs with hA hB hC hD hE <;> simp_all

/-- Counterexample for C6 as stated: for a stats collection whose
cached result is old enough that the adaptive condition of the claim
holds (and none of the other conditions fire), `shouldUpdate` still
returns nil, because the source restricts the popularity branch to
non-stats collections. -/
theorem claim_c6_counterexample :
    Updater.claimedUpdateCond updaterStatsExample "c" true false ∧
    Updater.shouldUpdate updaterStatsExample "c" true false = none := by
  constructor
  · exact Or.inr (Or.inr ⟨0, by decide,
      Or.inr (Or.inr ⟨by decide, by decide, by decide⟩)⟩)
  · decide

/-- Witness for C6: the same state, not used for stats, does require
an update via the popularity condition. -/
theorem claim_c6_witness :
    Updater.shouldUpdate updaterStatsExample "c" false false ≠ none :=
  (claim_c6_shouldUpdate_iff updaterStatsExample "c" false false).mpr
    (Or.inr (Or.inr ⟨0, by decide,
      Or.inr (Or.inr ⟨by decide, by decide, by decide, rfl⟩)⟩))

open Hubbub in
/-- Helper: the first component of the PR inspect fold stays below any
bound that dominates the accumulator and every updated-at in the
remaining input. -/
theorem prInspect_fold_fst_le (debug : List Nat) (cap : Time) :
    ∀ (l : List PullRequest) (acc : Time × List PullRequest),
      acc.1 ≤ cap → (∀ pr ∈ l, pr.updatedAt ≤ cap) →
      (List.foldl (prInspectStep debug) acc l).1 ≤ cap := by
  intro l
  induction l with
  | nil => intro acc hacc _; simpa using hacc
  | cons pr rest ih =>
    intro acc hacc hl
    simp only [List.foldl_cons]
    have hpr : pr.updatedAt ≤ cap := hl pr (by simp)
    have hstep : (prInspectStep debug acc pr).1 ≤ cap := by
      unfold prInspectStep
      split_ifs <;> first | exact hpr | exact hacc
    exact ih _ hstep (fun q hq => hl q (by simp [hq]))

open Hubbub in
/-- Helper: the PR inspect fold with an empty debug filter appends
every input to the accumulated list, in order. -/
theorem prInspect_fold_snd (l : List PullRequest) :
    ∀ (acc : Time × List PullRequest),
      (List.foldl (prInspectStep []) acc l).2 = acc.2 ++ l := by
  induction l with
  | nil => intro acc; simp
  | cons pr rest ih =>
    intro acc
    simp only [List.foldl_cons]
    rw [ih]
    simp [prInspectStep]

open Hubbub in
/-- Helper: the minimum fold is bounded by any bound on its seed. -/
theorem foldl_min_le (cap : Time) :
    ∀ (l : List Time) (a : Time), a ≤ cap → List.foldl min a l ≤ cap := by
  intro l
  induction l with
  | nil => intro a h; simpa using h
  | cons t rest ih =>
    intro a h
    simp only [List.foldl_cons]
    exact ih _ (le_trans (min_le_left _ _) h)

open Hubbub in
/-- Counterexample for C2 as stated: with the issue search reporting
fetch timestamp 5 and the PR search reporting 10, `SearchAny` returns
10 — the maximum — while the minimum of the two timestamps is 5. -/
theorem claim_c2_counterexample :
    searchAnyOut (searchIssuesOut 5 false ⟨[], 5, none⟩ ⟨[], 0, none⟩)
        (searchPullRequestsOut [] false ⟨[⟨1, "u", 10⟩], 3, none⟩ ⟨[], 0, none⟩) =
      (10, none) ∧
    min (searchIssuesOut 5 false ⟨[], 5, none⟩ ⟨[], 0, none⟩).1
        (searchPullRequestsOut [] false ⟨[⟨1, "u", 10⟩], 3, none⟩ ⟨[], 0, none⟩).1
      = 5 := by
  constructor <;> decide

open Hubbub in
/-- C2 (amended): `SearchAny` returns the LATER of the issue- and
PR-search timestamps; the issue-search timestamp is at most the search
start time (it is a running minimum seeded with `time.Now()`), while
the PR-search timestamp is the newest updated-at among the listed PRs
and is bounded by any cap dominating them; the spec-modelled
`ExecuteCollection` stamps `created := now` and takes the minimum rule
timestamp as `oldest-input`, so `oldest-input ≤ created` whenever every
rule timestamp is at most `created`. -/
theorem claim_c2_oldest_input :
    (∀ tsI tsP : Time, searchAnyOut (tsI, none) (tsP, none) = (max tsI tsP, none)) ∧
    (∀ (now : Time) (needClosed : Bool) (openRes closedRes : FetchOut Issue),
      searchIssuesAge now needClosed openRes closedRes ≤ now) ∧
    (∀ (debug : List Nat) (openPs closedPs : List PullRequest) (cap : Time),
      0 ≤ cap → (∀ pr ∈ openPs ++ closedPs, pr.updatedAt ≤ cap) →
      (prInspect debug openPs closedPs).1 ≤ cap) ∧
    (∀ (ruleTs : List Time) (now2 : Time),
      (∀ ts ∈ ruleTs, ts ≤ now2) →
      (Updater.executeCollectionResult ruleTs now2).oldestInput ≤
        (Updater.executeCollectionResult ruleTs now2).created) := by
  refine ⟨?_, ?_, ?_, ?_⟩
  · intro tsI tsP
    simp only [searchAnyOut]
    split_ifs with hgt
    · rw [max_eq_right (le_of_lt hgt)]
    · rw [max_eq_left (le_of_not_lt hgt)]
  · intro now needClosed openRes closedRes
    unfold searchIssuesAge
    cases openRes.err <;> dsimp only <;> split_ifs <;> linarith
  · intro debug openPs closedPs cap hcap hall
    exact prInspect_fold_fst_le debug cap _ (0, []) hcap hall
  · intro ruleTs now2 hall
    unfold Updater.executeCollectionResult
    cases ruleTs with
    | nil => simp
    | cons t rest =>
      exact foldl_min_le now2 rest t (hall t (by simp))

open Hubbub in
/-- Witness for C2: the hypothesised parts at concrete inputs. -/
theorem claim_c2_witness :
    (prInspect [] [⟨1, "u", 3⟩] []).1 ≤ 7 ∧
    (Updater.executeCollectionResult [2, 5] 6).oldestInput ≤
      (Updater.executeCollectionResult [2, 5] 6).created :=
  ⟨claim_c2_oldest_input.2.2.1 [] [⟨1, "u", 3⟩] [] 7 (by decide) (by decide),
   claim_c2_oldest_input.2.2.2 [2, 5] 6 (by decide)⟩

open Hubbub in
/-- Counterexample for C5 as stated: when the open-items listing fails
(here with "rate limited"), `SearchIssues` does not return that error
to its caller — its error result is nil (the goroutine only logs the
failure). -/
theorem claim_c5_counterexample :
    (searchIssuesOut 100 false ⟨[], 0, some "rate limited"⟩ ⟨[], 0, none⟩).2 ≠
      some "rate limited" ∧
    (searchIssuesOut 100 false ⟨[], 0, some "rate limited"⟩ ⟨[], 0, none⟩).2 =
      none := by
  constructor <;> decide

open Hubbub in
/-- C5 (amended): `SearchIssues` always returns a nil error — upstream
fetch failures are logged and the search continues with the remaining
inputs; independently, the updater's `update` replaces the cached
CollectionResult only when `ExecuteCollection` returns without error,
and on error it returns the error with the cache left untouched. -/
theorem claim_c5_error_handling :
    (∀ (now : Time) (needClosed : Bool) (openRes closedRes : FetchOut Issue),
      (searchIssuesOut now needClosed openRes closedRes).2 = none) ∧
    (∀ (cache : String → Option Updater.CollectionResult) (id : String)
        (e : GoError),
      Updater.update cache id (Except.error e) = (cache, some e)) ∧
    (∀ (cache : String → Option Updater.CollectionResult) (id : String)
        (r : Updater.CollectionResult),
      (Updater.update cache id (Except.ok r)).1 id = some r ∧
      (Updater.update cache id (Except.ok r)).2 = none ∧
      ∀ k, k ≠ id → (Updater.update cache id (Except.ok r)).1 k = cache k) := by
  refine ⟨fun _ _ _ _ => rfl, fun _ _ _ => rfl, ?_⟩
  intro cache id r
  refine ⟨by simp [Updater.update], rfl, ?_⟩
  intro k hk
  simp [Updater.update, hk]

open Hubbub in
/-- Witness for C5: the untouched-key part at concrete inputs. -/
theorem claim_c5_witness :
    (Updater.update (fun _ => none) "a" (Except.ok ⟨1, 0⟩)).1 "b" = none :=
  (claim_c5_error_handling.2.2 (fun _ => none) "a" ⟨1, 0⟩).2.2 "b" (by decide)

open Hubbub in
/-- Helper: the issue inspect fold with an empty debug filter computes
the first-seen-wins URL de-duplication. -/
theorem issueInspect_fold_dedup :
    ∀ (l : List Issue) (seen : List String) (acc : List Issue),
      (List.foldl (issueInspectStep []) (seen, acc) l).2 =
        acc ++ dedupFirstByUrl l seen := by
  intro l
  induction l with
  | nil => intro seen acc; simp [dedupFirstByUrl]
  | cons i rest ih =>
    intro seen acc
    have hdbg : ¬(([] : List Nat) ≠ [] ∧ i.number ∉ ([] : List Nat)) := by simp
    simp only [List.foldl_cons, issueInspectStep, if_neg hdbg]
    by_cases h : i.url ∈ seen
    · rw [if_pos h, ih]
      simp [dedupFirstByUrl, h]
    · rw [if_neg h, ih]
      simp [dedupFirstByUrl, h]

open Hubbub in
/-- Helper: the issue inspect fold keeps the URLs of its output
pairwise distinct, for any debug filter. -/
theorem issueInspect_fold_nodup (debug : List Nat) :
    ∀ (l : List Issue) (seen : List String) (acc : List Issue),
      (∀ a ∈ acc, a.url ∈ seen) →
      (acc.map (fun i => i.url)).Nodup →
      ((List.foldl (issueInspectStep debug) (seen, acc) l).2.map
        (fun i => i.url)).Nodup := by
  intro l
  induction l with
  | nil => intro seen acc _ hnd; simpa using hnd
  | cons i rest ih =>
    intro seen acc hmem hnd
    simp only [List.foldl_cons]
    unfold issueInspectStep
    split_ifs with h1 h2
    · exact ih seen acc hmem hnd
    · exact ih seen acc hmem hnd
    · refine ih (i.url :: seen) (acc ++ [i]) ?_ ?_
      · intro a ha
        rcases List.mem_append.mp ha with ha | ha
        · exact List.mem_cons_of_mem _ (hmem a ha)
        · simp only [List.mem_singleton] at ha
          subst ha
          exact List.mem_cons_self _ _
      · rw [List.map_append]
        refine List.Nodup.append hnd (by simp) ?_
        intro x hx hx2
        simp only [List.map_cons, List.map_nil, List.mem_singleton] at hx2
        subst hx2
        rcases List.mem_map.mp hx with ⟨a, ha, ha2⟩
        exact h2 (ha2 ▸ hmem a ha)

open Hubbub in
/-- Counterexample for C8 as stated: in a pull-request search, two
listed PRs sharing a URL both survive the inspect loop — the PR search
performs no URL de-duplication. -/
theorem claim_c8_counterexample :
    (prInspect [] [⟨1, "x", 0⟩] [⟨2, "x", 0⟩]).2 =
      [⟨1, "x", 0⟩, ⟨2, "x", 0⟩] ∧
    (⟨1, "x", 0⟩ : PullRequest).url = (⟨2, "x", 0⟩ : PullRequest).url := by
  constructor <;> decide

open Hubbub in
/-- C8 (amended): the issue search de-duplicates the concatenated
open+closed listing by URL with the first-seen occurrence winning (in
upstream order), so no two issue results share a URL; the PR search
appends the concatenated listing without any URL de-duplication. -/
theorem claim_c8_dedup :
    (∀ openIs closedIs : List Issue,
      issueInspect [] openIs closedIs =
        dedupFirstByUrl (openIs ++ closedIs) []) ∧
    (∀ (debug : List Nat) (openIs closedIs : List Issue),
      ((issueInspect debug openIs closedIs).map (fun i => i.url)).Nodup) ∧
    (∀ openPs closedPs : List PullRequest,
      (prInspect [] openPs closedPs).2 = openPs ++ closedPs) := by
  refine ⟨?_, ?_, ?_⟩
  · intro openIs closedIs
    unfold issueInspect
    rw [issueInspect_fold_dedup]
    simp
  · intro debug openIs closedIs
    unfold issueInspect
    exact issueInspect_fold_nodup debug _ [] [] (by simp) (by simp)
  · intro openPs closedPs
    unfold prInspect
    rw [prInspect_fold_snd]
    simp

open Hubbub in
/-- Witness for C8: the PR part at a concrete listing. -/
theorem claim_c8_witness :
    (prInspect [] [(⟨1, "a", 0⟩ : PullRequest)] []).2 =
      [(⟨1, "a", 0⟩ : PullRequest)] ++ [] :=
  claim_c8_dedup.2.2 [⟨1, "a", 0⟩] []

open Hubbub in
/-- Helper: the comment step never changes the conversation's created
stamp. -/
theorem processComment_created (h : Engine) (i : Item) (aim : Bool)
    (st : ConvState) (c : Comment) :
    (processComment h i aim st c).co.created = st.co.created := by
  by_cases hbot : h.isBot c.user <;> simp [processComment, hbot]

open Hubbub in
/-- Helper: the latest-member-response after one comment step. -/
theorem processComment_member (h : Engine) (i : Item) (aim : Bool)
    (st : ConvState) (c : Comment) :
    (processComment h i aim st c).co.latestMemberResponse =
      if h.isBot c.user then st.co.latestMemberResponse
      else if h.isMember c.user c.authorAssoc && !h.isBot c.user then c.created
      else st.co.latestMemberResponse := by
  by_cases hbot : h.isBot c.user <;> simp [processComment, hbot]

open Hubbub in
/-- Helper: the accumulated hold time after one comment step. -/
theorem processComment_hold (h : Engine) (i : Item) (aim : Bool)
    (st : ConvState) (c : Comment) :
    (processComment h i aim st c).co.accumulatedHoldTime =
      if h.isBot c.user then st.co.accumulatedHoldTime
      else if (h.isMember c.user c.authorAssoc && !h.isBot c.user) = true ∧
          (¬(st.co.latestMemberResponse >
              (if c.user = i.user then c.created
               else st.co.latestAuthorResponse)) ∧
            aim = false) then
        st.co.accumulatedHoldTime +
          (c.created -
            (if c.user = i.user then c.created
             else st.co.latestAuthorResponse))
      else st.co.accumulatedHoldTime := by
  by_cases hbot : h.isBot c.user <;> simp [processComment, hbot]

open Hubbub in
/-- Helper: the question time after one comment step. -/
theorem processComment_question (h : Engine) (i : Item) (aim : Bool)
    (st : ConvState) (c : Comment) :
    (processComment h i aim st c).lastQuestion =
      if h.isBot c.user then st.lastQuestion
      else scanQuestion st.lastQuestion c.body c.created := by
  by_cases hbot : h.isBot c.user <;> simp [processComment, hbot]

open Hubbub in
/-- Helper: a comment step can only append the `commented` tag. -/
theorem processComment_tags (h : Engine) (i : Item) (aim : Bool)
    (st : ConvState) (c : Comment) :
    (processComment h i aim st c).co.tags = st.co.tags ∨
    (processComment h i aim st c).co.tags = st.co.tags ++ [Tag.commented] := by
  by_cases hbot : h.isBot c.user
  · exact Or.inl (by simp [processComment, hbot])
  · simp only [processComment, if_neg hbot]
    split_ifs with hc
    · exact Or.inr rfl
    · exact Or.inl rfl

open Hubbub in
/-- Helper: the finish step keeps latest-member-response,
latest-author-response and created unchanged, and computes the final
accumulated hold time and the panic flag from them. -/
theorem finishConversation_fields (i : Item) (cs : List Comment) (now : Time)
    (aim : Bool) (st : ConvState) :
    (finishConversation i cs now aim st).1.latestMemberResponse =
        st.co.latestMemberResponse ∧
    (finishConversation i cs now aim st).1.created = st.co.created ∧
    (finishConversation i cs now aim st).1.accumulatedHoldTime =
      (if st.co.latestMemberResponse > st.co.latestAuthorResponse then
        st.co.accumulatedHoldTime
       else if aim = false then
        st.co.accumulatedHoldTime + (now - st.co.latestAuthorResponse)
       else st.co.accumulatedHoldTime) ∧
    (finishConversation i cs now aim st).2 =
      decide ((finishConversation i cs now aim st).1.accumulatedHoldTime >
        now - st.co.created) := by
  refine ⟨rfl, rfl, rfl, rfl⟩

open Hubbub in
/-- Helper: the finished tag list, as one concatenation. -/
theorem finishConversation_tags_eq (i : Item) (cs : List Comment) (now : Time)
    (aim : Bool) (st : ConvState) :
    (finishConversation i cs now aim st).1.tags =
      st.co.tags ++
        (if st.co.latestMemberResponse > st.co.latestAuthorResponse then
          [Tag.send]
         else if aim = false then [Tag.recv] else []) ++
        (if st.lastQuestion > st.co.latestMemberResponse then [Tag.recvQ]
         else []) ++
        (if i.milestoneState = some "open" then [Tag.openMilestone] else []) ++
        (if st.co.latestAssigneeResponse ≠ 0 then [Tag.assigneeUpdated]
         else []) ++
        (match cs.getLast? with
         | none => []
         | some last =>
           if last.authorAssoc.toLower = "none" then
             if last.user = i.user then [Tag.authorLast] else []
           else [Tag.roleLast last.authorAssoc.toLower]) ++
        (if st.co.state = "closed" then [Tag.closed] else []) := rfl

open Hubbub in
/-- Helper: anything contributed by the last-comment block is an
`authorLast` or `roleLast` tag. -/
theorem lastCommentTags_shape (i : Item) (cs : List Comment) (a : Tag) :
    a ∈ (match cs.getLast? with
      | none => ([] : List Tag)
      | some last =>
        if last.authorAssoc.toLower = "none" then
          if last.user = i.user then [Tag.authorLast] else []
        else [Tag.roleLast last.authorAssoc.toLower]) →
    a = Tag.authorLast ∨ ∃ r, a = Tag.roleLast r := by
  intro ha
  cases hl : cs.getLast? with
  | none => rw [hl] at ha; simp at ha
  | some last =>
    rw [hl] at ha
    dsimp only at ha
    split_ifs at ha <;> simp at ha <;> simp [ha]

open Hubbub in
/-- Helper: membership of `send` in the finished tag list. -/
theorem finishConversation_mem_send (i : Item) (cs : List Comment) (now : Time)
    (aim : Bool) (st : ConvState) :
    Tag.send ∈ (finishConversation i cs now aim st).1.tags ↔
      Tag.send ∈ st.co.tags ∨
        st.co.latestMemberResponse > st.co.latestAuthorResponse := by
  rw [finishConversation_tags_eq]
  simp only [List.mem_append]
  constructor
  · rintro ((((((h | h) | h) | h) | h) | h) | h)
    · exact Or.inl h
    · split_ifs at h with h1 h2
      · exact Or.inr h1
      · simp at h
      · simp at h
    · split_ifs at h <;> simp at h
    · split_ifs at h <;> simp at h
    · split_ifs at h <;> simp at h
    · rcases lastCommentTags_shape i cs _ h with hr | ⟨r, hr⟩ <;> simp at hr
    · split_ifs at h <;> simp at h
  · rintro (h | h)
    · exact Or.inl (Or.inl (Or.inl (Or.inl (Or.inl (Or.inl h)))))
    · refine Or.inl (Or.inl (Or.inl (Or.inl (Or.inl (Or.inr ?_)))))
      rw [if_pos h]
      simp

open Hubbub in
/-- Helper: membership of `recv` in the finished tag list. -/
theorem finishConversation_mem_recv (i : Item) (cs : List Comment) (now : Time)
    (aim : Bool) (st : ConvState) :
    Tag.recv ∈ (finishConversation i cs now aim st).1.tags ↔
      Tag.recv ∈ st.co.tags ∨
        (¬st.co.latestMemberResponse > st.co.latestAuthorResponse ∧
          aim = false) := by
  rw [finishConversation_tags_eq]
  simp only [List.mem_append]
  constructor
  · rintro ((((((h | h) | h) | h) | h) | h) | h)
    · exact Or.inl h
    · split_ifs at h with h1 h2
      · simp at h
      · exact Or.inr ⟨h1, h2⟩
      · simp at h
    · split_ifs at h <;> simp at h
    · split_ifs at h <;> simp at h
    · split_ifs at h <;> simp at h
    · rcases lastCommentTags_shape i cs _ h with hr | ⟨r, hr⟩ <;> simp at hr
    · split_ifs at h <;> simp at h
  · rintro (h | ⟨h1, h2⟩)
    · exact Or.inl (Or.inl (Or.inl (Or.inl (Or.inl (Or.inl h)))))
    · refine Or.inl (Or.inl (Or.inl (Or.inl (Or.inl (Or.inr ?_)))))
      rw [if_neg h1, if_pos h2]
      simp

open Hubbub in
/-- Helper: neither `send` nor `recv` appears in the tag list built by
the comment loop from an initial state free of them. -/
theorem foldl_tags_no_send_recv (h : Engine) (i : Item) (aim : Bool) :
    ∀ (l : List Comment) (st : ConvState),
      Tag.send ∉ st.co.tags → Tag.recv ∉ st.co.tags →
      Tag.send ∉ (List.foldl (processComment h i aim) st l).co.tags ∧
      Tag.recv ∉ (List.foldl (processComment h i aim) st l).co.tags := by
  intro l
  induction l with
  | nil => intro st hs hr; exact ⟨hs, hr⟩
  | cons c rest ih =>
    intro st hs hr
    simp only [List.foldl_cons]
    rcases processComment_tags h i aim st c with he | he
    · exact ih _ (he ▸ hs) (he ▸ hr)
    · refine ih _ ?_ ?_ <;> rw [he] <;> simp_all

open Hubbub in
/-- Helper: the initial conversation state of the builder. -/
theorem initConversation_fields (h : Engine) (i : Item) (age : Time) :
    (initConversation h i age).2 = h.isMember i.user i.authorAssoc ∧
    (initConversation h i age).1.latestMemberResponse =
      (if h.isMember i.user i.authorAssoc then 0 else i.createdAt) ∧
    (initConversation h i age).1.latestAuthorResponse = i.createdAt ∧
    (initConversation h i age).1.accumulatedHoldTime = 0 ∧
    (initConversation h i age).1.created = i.createdAt ∧
    Tag.send ∉ (initConversation h i age).1.tags ∧
    Tag.recv ∉ (initConversation h i age).1.tags := by
  by_cases hm : h.isMember i.user i.authorAssoc = true <;>
    cases ha : i.assignee <;>
    simp [initConversation, hm, ha]

open Hubbub in
/-- Helper: the comment fold never changes the created stamp. -/
theorem foldl_created (h : Engine) (i : Item) (aim : Bool) :
    ∀ (l : List Comment) (st : ConvState),
      (List.foldl (processComment h i aim) st l).co.created = st.co.created := by
  intro l
  induction l with
  | nil => intro st; rfl
  | cons c rest ih =>
    intro st
    simp only [List.foldl_cons]
    rw [ih, processComment_created]

open Hubbub in
/-- Helper: hold-time invariant through the comment fold.  For a
non-member author, the accumulated hold time stays below the distance
from the item's creation to the latest member response (itself below
`now`); for a member author it stays zero. -/
theorem hold_inv_fold (h : Engine) (i : Item) (aim : Bool) (now : Time) :
    ∀ (l : List Comment) (st : ConvState),
      List.Pairwise (fun a b => a.created ≤ b.created) l →
      (∀ c ∈ l, i.createdAt ≤ c.created ∧ c.created ≤ now) →
      (aim = false → ∀ c ∈ l, st.co.latestMemberResponse ≤ c.created) →
      (aim = false →
        st.co.latestMemberResponse ≤ now ∧
        st.co.accumulatedHoldTime ≤
          st.co.latestMemberResponse - i.createdAt) →
      (aim = true → st.co.accumulatedHoldTime = 0) →
      (aim = false →
        (List.foldl (processComment h i aim) st l).co.latestMemberResponse ≤
          now ∧
        (List.foldl (processComment h i aim) st l).co.accumulatedHoldTime ≤
          (List.foldl (processComment h i aim) st l).co.latestMemberResponse -
            i.createdAt) ∧
      (aim = true →
        (List.foldl (processComment h i aim) st l).co.accumulatedHoldTime
          = 0) := by
  intro l
  induction l with
  | nil => intro st _ _ _ hf ht; exact ⟨hf, ht⟩
  | cons c rest ih =>
    intro st hp hbnd hM hf ht
    have hpc : List.Pairwise (fun a b => a.created ≤ b.created) rest :=
      hp.of_cons
    have hhead : ∀ b ∈ rest, c.created ≤ b.created :=
      (List.pairwise_cons.mp hp).1
    have hcb := hbnd c (List.mem_cons_self c rest)
    simp only [List.foldl_cons]
    have hMeq : (processComment h i aim st c).co.latestMemberResponse =
        st.co.latestMemberResponse ∨
        (processComment h i aim st c).co.latestMemberResponse = c.created := by
      rw [processComment_member]
      split_ifs <;> simp
    have hf2 : aim = false →
        (processComment h i aim st c).co.latestMemberResponse ≤ now ∧
        (processComment h i aim st c).co.accumulatedHoldTime ≤
          (processComment h i aim st c).co.latestMemberResponse -
            i.createdAt := by
      intro ha
      obtain ⟨h1, h2⟩ := hf ha
      have hMc := hM ha c (List.mem_cons_self c rest)
      rw [processComment_member, processComment_hold]
      by_cases hbot : h.isBot c.user = true
      · simp only [if_pos hbot]
        exact ⟨h1, h2⟩
      · simp only [if_neg hbot]
        by_cases hmem : (h.isMember c.user c.authorAssoc && !h.isBot c.user)
            = true
        · simp only [if_pos hmem]
          refine ⟨hcb.2, ?_⟩
          by_cases hacc : (h.isMember c.user c.authorAssoc && !h.isBot c.user)
                = true ∧
              (¬(st.co.latestMemberResponse >
                  (if c.user = i.user then c.created
                   else st.co.latestAuthorResponse)) ∧
                aim = false)
          · rw [if_pos hacc]
            have hle : st.co.latestMemberResponse ≤
                (if c.user = i.user then c.created
                 else st.co.latestAuthorResponse) := le_of_not_lt hacc.2.1
            linarith
          · rw [if_neg hacc]
            linarith
        · simp only [if_neg hmem]
          rw [if_neg (fun hx => hmem hx.1)]
          exact ⟨h1, h2⟩
    have ht2 : aim = true →
        (processComment h i aim st c).co.accumulatedHoldTime = 0 := by
      intro ha
      rw [processComment_hold]
      simp [ha, ht ha]
    have hM2 : aim = false →
        ∀ b ∈ rest,
          (processComment h i aim st c).co.latestMemberResponse ≤
            b.created := by
      intro ha b hbmem
      rcases hMeq with he | he
      · rw [he]; exact hM ha b (List.mem_cons_of_mem _ hbmem)
      · rw [he]; exact hhead b hbmem
    exact ih (processComment h i aim st c) hpc
      (fun b hb2 => hbnd b (List.mem_cons_of_mem _ hb2)) hM2 hf2 ht2

open Hubbub in
/-- Helper: the line fold of the question scan finds a question mark
on a non-quoted line iff some such line exists. -/
theorem scan_lines_fold (created : Time) :
    ∀ (lines : List String) (lq : Time),
      List.foldl
        (fun lq line =>
          let line := goTrimSpace line
          if goHasPrefix line ">" then lq
          else if goContainsChar line '?' then created
          else lq)
        lq lines =
      if lines.any (fun line =>
          let line := goTrimSpace line
          !goHasPrefix line ">" && goContainsChar line '?') = true then created
      else lq := by
  intro lines
  induction lines with
  | nil => intro lq; simp
  | cons l rest ih =>
    intro lq
    simp only [List.foldl_cons, List.any_cons]
    by_cases h1 : (goHasPrefix (goTrimSpace l) ">") = true
    · simp [h1, ih]
    · by_cases h2 : (goContainsChar (goTrimSpace l) '?') = true
      · simp [h1, h2, ih]
      · simp [h1, h2, ih]

open Hubbub in
/-- C3: on every built Conversation, `send` and `recv` are never both
present, and at least one of them is present unless the item's author
is a member. -/
theorem claim_c3_send_recv (h : Engine) (i : Item) (cs : List Comment)
    (now age : Time) :
    ¬(Tag.send ∈ (conversation h i cs now age).1.tags ∧
      Tag.recv ∈ (conversation h i cs now age).1.tags) ∧
    (h.isMember i.user i.authorAssoc = false →
      Tag.send ∈ (conversation h i cs now age).1.tags ∨
      Tag.recv ∈ (conversation h i cs now age).1.tags) := by
  obtain ⟨hi2, _, _, _, _, hiS, hiR⟩ := initConversation_fields h i age
  have hconv : conversation h i cs now age =
      finishConversation i cs now (initConversation h i age).2
        (List.foldl (processComment h i (initConversation h i age).2)
          { co := (initConversation h i age).1
            lastQuestion := 0
            seenCommenters := []
            seenClosedCommenters := []
            seenMemberComment := false } cs) := rfl
  obtain ⟨hnoS, hnoR⟩ :=
    foldl_tags_no_send_recv h i (initConversation h i age).2 cs
      { co := (initConversation h i age).1
        lastQuestion := 0
        seenCommenters := []
        seenClosedCommenters := []
        seenMemberComment := false } hiS hiR
  constructor
  · rintro ⟨hs, hr⟩
    rw [hconv, finishConversation_mem_send] at hs
    rw [hconv, finishConversation_mem_recv] at hr
    rcases hs with hs | hs
    · exact hnoS hs
    rcases hr with hr | hr
    · exact hnoR hr
    exact hr.1 hs
  · intro hm
    by_cases hgt :
        (List.foldl (processComment h i (initConversation h i age).2)
          { co := (initConversation h i age).1
            lastQuestion := 0
            seenCommenters := []
            seenClosedCommenters := []
            seenMemberComment := false } cs).co.latestMemberResponse >
        (List.foldl (processComment h i (initConversation h i age).2)
          { co := (initConversation h i age).1
            lastQuestion := 0
            seenCommenters := []
            seenClosedCommenters := []
            seenMemberComment := false } cs).co.latestAuthorResponse
    · left
      rw [hconv, finishConversation_mem_send]
      exact Or.inr hgt
    · right
      rw [hconv, finishConversation_mem_recv]
      exact Or.inr ⟨hgt, by rw [hi2]; exact hm⟩

open Hubbub in
/-- Witness for C3: a non-member-authored item gets `send` or `recv`. -/
theorem claim_c3_witness :
    Tag.send ∈ (conversation engineExample outsiderItemExample [] 5 0).1.tags ∨
    Tag.recv ∈ (conversation engineExample outsiderItemExample [] 5 0).1.tags :=
  (claim_c3_send_recv engineExample outsiderItemExample [] 5 0).2 (by decide)

open Hubbub in
/-- Counterexample for C4 as stated: for an item whose author IS a
member, latest-member-response starts at the zero time, not at the
item's creation time — the source initializes it from creation only
when the author is NOT a member. -/
theorem claim_c4_counterexample :
    engineExample.isMember memberItemExample.user
        memberItemExample.authorAssoc = true ∧
    (conversation engineExample memberItemExample [] 200 0).1.latestMemberResponse ≠
      memberItemExample.createdAt ∧
    (conversation engineExample memberItemExample [] 200 0).1.latestMemberResponse
      = 0 := by
  refine ⟨by decide, by decide, by decide⟩

open Hubbub in
/-- C4 (amended): latest-member-response starts at the item's creation
time iff the author is NOT a member (otherwise at the zero time), and
is updated to the creation time of each non-bot member comment (and is
unchanged by any other comment). -/
theorem claim_c4_member_response (h : Engine) (i : Item) (now age : Time) :
    ((conversation h i [] now age).1.latestMemberResponse =
      if h.isMember i.user i.authorAssoc then 0 else i.createdAt) ∧
    ∀ (cs : List Comment) (c : Comment),
      (conversation h i (cs ++ [c]) now age).1.latestMemberResponse =
        if h.isBot c.user = false ∧ h.isMember c.user c.authorAssoc = true then
          c.created
        else (conversation h i cs now age).1.latestMemberResponse := by
  obtain ⟨_, hiM, _, _, _, _, _⟩ := initConversation_fields h i age
  constructor
  · have hconv : conversation h i [] now age =
        finishConversation i [] now (initConversation h i age).2
          { co := (initConversation h i age).1
            lastQuestion := 0
            seenCommenters := []
            seenClosedCommenters := []
            seenMemberComment := false } := rfl
    rw [hconv, (finishConversation_fields i [] now _ _).1]
    exact hiM
  · intro cs c
    have hconv1 : ∀ (l : List Comment),
        (conversation h i l now age).1.latestMemberResponse =
          (List.foldl (processComment h i (initConversation h i age).2)
            { co := (initConversation h i age).1
              lastQuestion := 0
              seenCommenters := []
              seenClosedCommenters := []
              seenMemberComment := false } l).co.latestMemberResponse :=
      fun l => (finishConversation_fields i l now _ _).1
    rw [hconv1, hconv1, List.foldl_append, List.foldl_cons, List.foldl_nil,
      processComment_member]
    by_cases hbot : h.isBot c.user = true
    · simp [hbot]
    · have hb2 : h.isBot c.user = false := by
        revert hbot; cases h.isBot c.user <;> simp
      by_cases hmem : h.isMember c.user c.authorAssoc = true
      · simp [hb2, hmem]
      · simp [hb2, hmem]

open Hubbub in
/-- Witness for C4: the theorem applied at a concrete non-member
author and one member comment. -/
theorem claim_c4_witness :
    (conversation engineExample outsiderItemExample
        [⟨"alice", "NONE", "ok", 150, 150, 0⟩] 200 0).1.latestMemberResponse =
      150 := by
  have hx := (claim_c4_member_response engineExample outsiderItemExample
    200 0).2 [] ⟨"alice", "NONE", "ok", 150, 150, 0⟩
  rw [if_pos (by decide)] at hx
  exact hx

open Hubbub in
/-- Counterexample for C7 as stated: a comment whose only question
mark sits inside a fenced code block still moves last-question-time to
the comment's creation time, because the question scan runs on the raw
body — while the claim's stripped-body predicate rejects it. -/
theorem claim_c7_counterexample :
    scanQuestion 0 fencedQuestionBody 100 = 100 ∧
    claimQuestionPred fencedQuestionBody = false := by
  constructor <;> decide

open Hubbub in
/-- C7 (amended): the question scan updates last-question-time to the
comment's creation time iff the RAW body contains a question mark and
some trimmed line of it does not start with `>` yet contains a
question mark — code fences and details blocks are not stripped; a
question mark on a quoted line alone does not update it, but one
inside a fenced code block does.  The second conjunct places the scan
in the comment step: every non-bot comment is scanned. -/
theorem claim_c7_question_scan :
    (∀ (lq created : Time) (body : String),
      scanQuestion lq body created =
        if rawBodyQuestion body = true then created else lq) ∧
    (∀ (h : Engine) (i : Item) (aim : Bool) (st : ConvState) (c : Comment),
      (processComment h i aim st c).lastQuestion =
        if h.isBot c.user then st.lastQuestion
        else scanQuestion st.lastQuestion c.body c.created) := by
  constructor
  · intro lq created body
    unfold scanQuestion rawBodyQuestion
    by_cases hq : (goContainsChar body '?') = true
    · rw [if_pos hq, scan_lines_fold]
      simp [hq]
    · rw [if_neg hq]
      simp [hq]
  · exact processComment_question

open Hubbub in
/-- Witness for C7: the scan at a concrete quoted-question body. -/
theorem claim_c7_witness :
    scanQuestion 3 "> why?" 9 = 3 := by
  have hx := claim_c7_question_scan.1 3 9 "> why?"
  rw [if_neg (by decide)] at hx
  exact hx

open Hubbub in
/-- C9: when comments arrive in chronological order with creation
times between the item's creation and now, the accumulated hold time
never exceeds `now - created`, so the panic branch is unreachable. -/
theorem claim_c9_hold_bound (h : Engine) (i : Item) (cs : List Comment)
    (now age : Time)
    (hsort : List.Pairwise (fun a b => a.created ≤ b.created) cs)
    (hb : ∀ c ∈ cs, i.createdAt ≤ c.created ∧ c.created ≤ now)
    (hnow : i.createdAt ≤ now) :
    (conversation h i cs now age).1.accumulatedHoldTime ≤ now - i.createdAt ∧
    (conversation h i cs now age).2 = false := by
  obtain ⟨hi2, hiM, hiA, hiH, hiC, _, _⟩ := initConversation_fields h i age
  have hconv : conversation h i cs now age =
      finishConversation i cs now (initConversation h i age).2
        (List.foldl (processComment h i (initConversation h i age).2)
          { co := (initConversation h i age).1
            lastQuestion := 0
            seenCommenters := []
            seenClosedCommenters := []
            seenMemberComment := false } cs) := rfl
  have hM0 : (initConversation h i age).2 = false →
      ∀ c ∈ cs,
        (initConversation h i age).1.latestMemberResponse ≤ c.created := by
    intro ha c hc
    rw [hiM, if_neg (by rw [hi2] at ha; simp [ha])]
    exact (hb c hc).1
  have hf0 : (initConversation h i age).2 = false →
      (initConversation h i age).1.latestMemberResponse ≤ now ∧
      (initConversation h i age).1.accumulatedHoldTime ≤
        (initConversation h i age).1.latestMemberResponse - i.createdAt := by
    intro ha
    rw [hiM, hiH, if_neg (by rw [hi2] at ha; simp [ha])]
    exact ⟨hnow, by linarith⟩
  have ht0 : (initConversation h i age).2 = true →
      (initConversation h i age).1.accumulatedHoldTime = 0 := fun _ => hiH
  obtain ⟨hff, hft⟩ := hold_inv_fold h i (initConversation h i age).2 now cs
    { co := (initConversation h i age).1
      lastQuestion := 0
      seenCommenters := []
      seenClosedCommenters := []
      seenMemberComment := false } hsort hb hM0 hf0 ht0
  obtain ⟨hfM, hfC, hfH, hfP⟩ := finishConversation_fields i cs now
    (initConversation h i age).2
    (List.foldl (processComment h i (initConversation h i age).2)
      { co := (initConversation h i age).1
        lastQuestion := 0
        seenCommenters := []
        seenClosedCommenters := []
        seenMemberComment := false } cs)
  have hcreated :
      (List.foldl (processComment h i (initConversation h i age).2)
        { co := (initConversation h i age).1
          lastQuestion := 0
          seenCommenters := []
          seenClosedCommenters := []
          seenMemberComment := false } cs).co.created = i.createdAt := by
    rw [foldl_created]
    exact hiC
  have hbound : (conversation h i cs now age).1.accumulatedHoldTime ≤
      now - i.createdAt := by
    rw [hconv, hfH]
    split_ifs with hgt haim
    · by_cases ha2 : (initConversation h i age).2 = true
      · rw [hft ha2]; linarith
      · obtain ⟨hx1, hx2⟩ := hff (by simpa using ha2)
        linarith
    · obtain ⟨hx1, hx2⟩ := hff haim
      have hle := le_of_not_lt hgt
      linarith
    · have ha2 : (initConversation h i age).2 = true := by
        revert haim
        cases (initConversation h i age).2 <;> simp
      rw [hft ha2]
      linarith
  refine ⟨hbound, ?_⟩
  rw [hconv, hfP, hcreated]
  rw [← hconv]
  exact decide_eq_false (not_lt.mpr hbound)

open Hubbub in
/-- Witness for C9: the bound at a concrete item and comment list. -/
theorem claim_c9_witness :
    (conversation engineExample outsiderItemExample [] 200 0).1.accumulatedHoldTime ≤
      200 - outsiderItemExample.createdAt ∧
    (conversation engineExample outsiderItemExample [] 200 0).2 = false :=
  claim_c9_hold_bound engineExample outsiderItemExample [] 200 0
    (by simp) (by simp) (by decide)

end TriageParty
